import Mathlib

/-!
# Verification of the p2p-chat signaling backend

A shallow embedding of `src/backend/src/main.rs` (a WebSocket signaling
relay for pairs of peers) together with proofs of the specified
properties: room-registry invariants, join/relay/cleanup behaviour,
error surfacing and the admission handler.

Modelling choices:
* `Uuid` is modelled as `Nat` (only equality of ids is ever used).
* Rust `HashMap`s are modelled as association lists with unique keys;
  `insert` replaces an existing binding in place or appends a new one,
  matching `HashMap::insert`, and `retain` is `List.filter`.
* An outbound `mpsc::Sender<Message>` handle is identified by the `Nat`
  key of its connection's queue in a global queue table; `try_send`
  appends when the queue is open and below capacity 32 and otherwise
  drops the frame, while the awaited `send` appends whenever the
  receiving half is still alive (it suspends instead of dropping).
* JSON text frames are modelled structurally: `Frame.textRaw s` is an
  inbound text relayed verbatim, `Frame.peersMsg ps` is the serialized
  `{"type":"peers","peers":ps}` object, `Frame.errorMsg m` the
  serialized `{"type":"error","message":m}` object and `Frame.closeMsg`
  a WebSocket close frame.
-/

set_option autoImplicit false

namespace P2PChat

/-- Connection identifier (`uuid::Uuid` in the source, only compared for
equality). -/
abbrev Uuid := Nat

/-- A registry entry for one member of a room: the username and the
outbound-queue handle stored in
`HashMap<Uuid, (String, mpsc::Sender<Message>)>`. -/
structure Member where
  username : String
  handle : Nat
deriving Repr, DecidableEq

/-- One room's membership table, `HashMap<Uuid, (String, Sender)>`. -/
abbrev RoomPeers := List (Uuid × Member)

/-- The rooms registry, `HashMap<String, HashMap<Uuid, ...>>`. -/
abbrev Rooms := List (String × RoomPeers)

/-- An outbound frame, structural form of the `Message` values the
backend enqueues. -/
inductive Frame where
  | textRaw (s : String)
  | peersMsg (peers : List String)
  | errorMsg (message : String)
  | closeMsg
deriving Repr, DecidableEq

/-- State of one connection's bounded outbound queue
(`mpsc::channel(32)`): the buffered frames and whether the receiving
half has been dropped. -/
structure Queue where
  buf : List Frame
  closed : Bool
deriving Repr, DecidableEq

/-- All outbound queues, keyed by handle. -/
abbrev Queues := List (Nat × Queue)

/-- The capacity passed to `mpsc::channel` in `handle_socket`. -/
def CHANNEL_CAP : Nat := 32

/-- `SignalingMessage` from the source: the tagged union of inbound
messages. -/
inductive SignalingMessage where
  | JoinRoom (room : String)
  | Offer (room : String) (sdp : String)
  | Answer (room : String) (sdp : String)
  | IceCandidate (room : String) (candidate : String)
deriving Repr, DecidableEq

/-- Association-list lookup, the model of `HashMap::get`. -/
def lookupA {α β : Type} [DecidableEq α] : List (α × β) → α → Option β
  | [], _ => none
  | p :: rest, k => if p.1 = k then some p.2 else lookupA rest k

/-- Association-list insert, the model of `HashMap::insert`: replaces an
existing binding in place, otherwise appends. -/
def insertA {α β : Type} [DecidableEq α] : List (α × β) → α → β → List (α × β)
  | [], k, v => [(k, v)]
  | p :: rest, k, v => if p.1 = k then (k, v) :: rest else p :: insertA rest k v

/-- `Sender::try_send`: enqueue the frame if the target queue exists, is
open and holds fewer than `CHANNEL_CAP` frames; otherwise drop it
silently. -/
def trySend : Queues → Nat → Frame → Queues
  | [], _, _ => []
  | p :: rest, h, f =>
    (if p.1 = h ∧ p.2.closed = false ∧ p.2.buf.length < CHANNEL_CAP
     then (p.1, ⟨p.2.buf ++ [f], p.2.closed⟩) else p) :: trySend rest h f

/-- Awaited `Sender::send`: suspends until capacity is available, so it
enqueues whenever the receiving half is still alive and otherwise
returns an error that the caller discards. -/
def blockSend : Queues → Nat → Frame → Queues
  | [], _, _ => []
  | p :: rest, h, f =>
    (if p.1 = h ∧ p.2.closed = false
     then (p.1, ⟨p.2.buf ++ [f], p.2.closed⟩) else p) :: blockSend rest h f

/-- `join_room` (main.rs lines 163-184). `rooms.entry(room).or_insert_with(HashMap::new)`
materializes the room, a membership of 2 or more is rejected with
`Err(())`, otherwise the member is inserted and, exactly when the new
membership is 2, a `peers` notification listing both usernames is
`try_send`-ed to every member's handle inside the same critical
section. Returns the new registry, the new queues and whether the join
succeeded. -/
def join_room (rooms : Rooms) (queues : Queues) (room : String)
    (client_id : Uuid) (username : String) (tx : Nat) :
    Rooms × Queues × Bool :=
  let peers := (lookupA rooms room).getD []
  if 2 ≤ peers.length then
    (insertA rooms room peers, queues, false)
  else
    let peers2 := insertA peers client_id ⟨username, tx⟩
    let rooms2 := insertA rooms room peers2
    if peers2.length = 2 then
      let names := peers2.map fun p => p.2.username
      (rooms2, peers2.foldl (fun qs p => trySend qs p.2.handle (.peersMsg names)) queues, true)
    else
      (rooms2, queues, true)

/-- Linear scan of one room's members for the first id different from
`client_id` (the `for` loop inside `find_other_peer`). -/
def findOther : RoomPeers → Uuid → Option (Uuid × String)
  | [], _ => none
  | p :: rest, cid => if p.1 ≠ cid then some (p.1, p.2.username) else findOther rest cid

/-- `find_other_peer` (main.rs lines 186-200): in the named room, the
first member whose id differs from `client_id`, if any. -/
def find_other_peer (rooms : Rooms) (room : String) (client_id : Uuid) :
    Option (Uuid × String) :=
  match lookupA rooms room with
  | some peers => findOther peers client_id
  | none => none

/-- `get_sender` (main.rs lines 202-217): the outbound handle stored for
`client_id` in the named room, if any. -/
def get_sender (rooms : Rooms) (room : String) (client_id : Uuid) : Option Nat :=
  match lookupA rooms room with
  | some peers =>
    match lookupA peers client_id with
    | some m => some m.handle
    | none => none
  | none => none

/-- `remove_from_rooms` (main.rs lines 219-225): drop `client_id` from
every room's membership and drop every room left empty. -/
def remove_from_rooms (rooms : Rooms) (client_id : Uuid) : Rooms :=
  (rooms.map fun r => (r.1, r.2.filter fun p => p.1 ≠ client_id)).filter
    fun r => ¬r.2.isEmpty

/-- Combined server state touched by one inbound message: the rooms
registry and the outbound queues. -/
structure ServerState where
  rooms : Rooms
  queues : Queues
deriving Repr, DecidableEq

/-- The relay arm shared by `Offer`, `Answer` and `IceCandidate`
(main.rs lines 143-152): forward the original text to the other peer's
handle with `try_send`, or report `"No peer in room"` to the sender. -/
def relay_branch (st : ServerState) (client_id : Uuid) (tx : Nat)
    (text : String) (room : String) : ServerState :=
  match find_other_peer st.rooms room client_id with
  | some other =>
    match get_sender st.rooms room other.1 with
    | some otx => ⟨st.rooms, trySend st.queues otx (.textRaw text)⟩
    | none => st
  | none => ⟨st.rooms, blockSend st.queues tx (.errorMsg "No peer in room")⟩

/-- The `match &sig_msg` dispatch inside `handle_socket`
(main.rs lines 134-153): `JoinRoom` drives `join_room` and reports
`"Room full"` on failure; the three relay variants drive
`relay_branch` with the original inbound text. -/
def handle_signaling (st : ServerState) (client_id : Uuid) (username : String)
    (tx : Nat) (text : String) (m : SignalingMessage) : ServerState :=
  match m with
  | .JoinRoom room =>
    let r := join_room st.rooms st.queues room client_id username tx
    if r.2.2 then ⟨r.1, r.2.1⟩
    else ⟨r.1, blockSend r.2.1 tx (.errorMsg "Room full")⟩
  | .Offer room _ => relay_branch st client_id tx text room
  | .Answer room _ => relay_branch st client_id tx text room
  | .IceCandidate room _ => relay_branch st client_id tx text room

/-- The room named by a relay (`Offer`/`Answer`/`IceCandidate`) message,
`none` for `JoinRoom`. -/
def relayRoom : SignalingMessage → Option String
  | .JoinRoom _ => none
  | .Offer r _ => some r
  | .Answer r _ => some r
  | .IceCandidate r _ => some r

/-- One item produced by `stream.next()` in the reading loop: a read
error, a text frame (with the result of `serde_json::from_str`), a
client close frame, or any other frame kind. -/
inductive ReadItem where
  | errorItem
  | textItem (raw : String) (parsed : Option SignalingMessage)
  | closeItem
  | otherItem
deriving Repr, DecidableEq

/-- The reading loop of `handle_socket` (main.rs lines 124-156) run over
a finite inbound stream; the stream ending (`next()` returning `None`)
terminates the loop. A read error sends a best-effort close frame on
the session's own queue and breaks; a text frame that parses is
dispatched; every other frame — including a client close frame — is
skipped by the `if let Message::Text` guard. -/
def reading_loop (st : ServerState) (client_id : Uuid) (username : String)
    (tx : Nat) : List ReadItem → ServerState
  | [] => st
  | .errorItem :: _ => ⟨st.rooms, blockSend st.queues tx .closeMsg⟩
  | .textItem raw parsed :: rest =>
    match parsed with
    | some m =>
      reading_loop (handle_signaling st client_id username tx raw m) client_id username tx rest
    | none => reading_loop st client_id username tx rest
  | .closeItem :: rest => reading_loop st client_id username tx rest
  | .otherItem :: rest => reading_loop st client_id username tx rest

/-- JWT claims (`struct Claims`). -/
structure Claims where
  sub : String
  exp : Nat
deriving Repr, DecidableEq

/-- The only status code the WebSocket admission path produces. -/
inductive StatusCode where
  | unauthorized
deriving Repr, DecidableEq

/-- `validate_token` (main.rs lines 74-83), parameterized by the
`jsonwebtoken::decode` verification step (`none` models any decode
failure — bad signature, malformed token or expiry): every failure is
mapped to `401 Unauthorized`, success yields the claims' subject. -/
def validate_token (decodeTok : String → Option Claims) (token : String) :
    Except StatusCode String :=
  match decodeTok token with
  | some c => .ok c.sub
  | none => .error .unauthorized

/-- Result of `ws_handler`: either a plain status response (no upgrade,
no session) or an upgrade that runs `handle_socket` with the given
username. -/
inductive WsResponse where
  | status (s : StatusCode)
  | upgraded (username : String)
deriving Repr, DecidableEq

/-- `ws_handler` (main.rs lines 85-101): a missing `token` query
parameter or a failed `validate_token` yields `401 Unauthorized`
without upgrading; otherwise the connection is upgraded into a session
whose identity is the token's subject. -/
def ws_handler (decodeTok : String → Option Claims) (query : Option String) :
    WsResponse :=
  match query with
  | none => .status .unauthorized
  | some token =>
    match validate_token decodeTok token with
    | .ok u => .upgraded u
    | .error s => .status s

/-- Well-formedness of one room's membership table: at most two members
and pairwise-distinct keys (as in the Rust `HashMap`). -/
def WFPeers (peers : RoomPeers) : Prop :=
  peers ≠ [] ∧ peers.length ≤ 2 ∧ (peers.map Prod.fst).Nodup

/-- Well-formedness of the registry: pairwise-distinct room names and
every stored room non-empty, of size at most 2, with distinct member
keys. -/
def WFRooms (rooms : Rooms) : Prop :=
  (rooms.map Prod.fst).Nodup ∧ ∀ r ∈ rooms, WFPeers r.2

instance : DecidablePred WFPeers := fun _ =>
  inferInstanceAs (Decidable (_ ∧ _ ∧ _))

instance : DecidablePred WFRooms := fun _ =>
  inferInstanceAs (Decidable (_ ∧ _))

/-- Concrete registry used by the witnesses: one room `"r"` holding
connections 1 (`alice`, handle 10) and 2 (`bob`, handle 20). -/
def exRooms : Rooms := [("r", [(1, ⟨"alice", 10⟩), (2, ⟨"bob", 20⟩)])]

/-- Concrete open, empty queues for handles 10 and 20. -/
def exQueues : Queues := [(10, ⟨[], false⟩), (20, ⟨[], false⟩)]

/-- Concrete server state used by the witnesses. -/
def exState : ServerState := ⟨exRooms, exQueues⟩

/-- Concrete token verifier used by the witnesses: accepts exactly one
token, asserting the identity `alice`. -/
def exDecode : String → Option Claims :=
  fun t => if t = "tok" then some ⟨"alice", 99⟩ else none

/-! ## Association-list lemmas -/

section AssocLemmas

variable {α β : Type} [DecidableEq α]

theorem lookupA_insertA_self (l : List (α × β)) (k : α) (v : β) :
    lookupA (insertA l k v) k = some v := by
  induction l with
  | nil => simp [insertA, lookupA]
  | cons p rest ih =>
    by_cases h : p.1 = k
    · simp [insertA, h, lookupA]
    · simp [insertA, h, lookupA, ih]

theorem lookupA_insertA_ne (l : List (α × β)) (k k' : α) (v : β) (h : k' ≠ k) :
    lookupA (insertA l k v) k' = lookupA l k' := by
  have hkk : ¬k = k' := fun hk => h hk.symm
  induction l with
  | nil => simp [insertA, lookupA, hkk]
  | cons p rest ih =>
    by_cases hp : p.1 = k
    · have hpk : ¬p.1 = k' := by rw [hp]; exact hkk
      simp [insertA, hp, lookupA, hkk, hpk]
    · simp [insertA, hp, lookupA, ih]

theorem lookupA_eq_none_iff (l : List (α × β)) (k : α) :
    lookupA l k = none ↔ k ∉ l.map Prod.fst := by
  induction l with
  | nil => simp [lookupA]
  | cons p rest ih =>
    simp only [List.map_cons, List.mem_cons, not_or]
    by_cases h : p.1 = k
    · simp [lookupA, h]
    · simp only [lookupA, h, if_false, ih]
      constructor
      · exact fun hn => ⟨fun hk => h hk.symm, hn⟩
      · exact And.right

theorem mem_of_lookupA_eq_some {l : List (α × β)} {k : α} {v : β}
    (h : lookupA l k = some v) : (k, v) ∈ l := by
  induction l with
  | nil => simp [lookupA] at h
  | cons p rest ih =>
    by_cases hp : p.1 = k
    · simp [lookupA, hp] at h
      subst h; subst hp
      simp
    · simp [lookupA, hp] at h
      exact List.mem_cons_of_mem _ (ih h)

theorem insertA_eq_self {l : List (α × β)} {k : α} {v : β}
    (h : lookupA l k = some v) : insertA l k v = l := by
  induction l with
  | nil => simp [lookupA] at h
  | cons p rest ih =>
    by_cases hp : p.1 = k
    · simp [lookupA, hp] at h
      simp only [insertA, if_pos hp]
      rw [← hp, ← h]
    · simp [lookupA, hp] at h
      simp [insertA, hp, ih h]

theorem length_insertA_none {l : List (α × β)} {k : α} (v : β)
    (h : lookupA l k = none) : (insertA l k v).length = l.length + 1 := by
  induction l with
  | nil => simp [insertA]
  | cons p rest ih =>
    by_cases hp : p.1 = k
    · simp [lookupA, hp] at h
    · simp [lookupA, hp] at h
      simp [insertA, hp, ih h]

theorem length_insertA_some {l : List (α × β)} {k : α} {w : β} (v : β)
    (h : lookupA l k = some w) : (insertA l k v).length = l.length := by
  induction l with
  | nil => simp [lookupA] at h
  | cons p rest ih =>
    by_cases hp : p.1 = k
    · simp [insertA, hp]
    · simp [lookupA, hp] at h
      simp [insertA, hp, ih h]

theorem length_insertA_le (l : List (α × β)) (k : α) (v : β) :
    (insertA l k v).length ≤ l.length + 1 := by
  cases h : lookupA l k with
  | none => exact (length_insertA_none v h).le
  | some w => rw [length_insertA_some v h]; omega

theorem insertA_ne_nil (l : List (α × β)) (k : α) (v : β) :
    insertA l k v ≠ [] := by
  cases l with
  | nil => simp [insertA]
  | cons p rest =>
    by_cases hp : p.1 = k <;> simp [insertA, hp]

theorem keys_insertA (l : List (α × β)) (k : α) (v : β) :
    (insertA l k v).map Prod.fst =
      if (lookupA l k).isSome then l.map Prod.fst else l.map Prod.fst ++ [k] := by
  induction l with
  | nil => simp [insertA, lookupA]
  | cons p rest ih =>
    by_cases hp : p.1 = k
    · have hl : lookupA (p :: rest) k = some p.2 := by simp [lookupA, hp]
      simp [insertA, hp, hl]
    · simp only [insertA, hp, if_false, List.map_cons, lookupA, ih]
      by_cases hs : (lookupA rest k).isSome <;> simp [hs]

theorem nodup_keys_insertA {l : List (α × β)} (k : α) (v : β)
    (h : (l.map Prod.fst).Nodup) : ((insertA l k v).map Prod.fst).Nodup := by
  rw [keys_insertA]
  cases hl : lookupA l k with
  | some w => simpa using h
  | none =>
    have hk : k ∉ l.map Prod.fst := (lookupA_eq_none_iff l k).mp hl
    simp [List.nodup_append, h, hk]

theorem mem_insertA {l : List (α × β)} {k : α} {v : β} {p : α × β}
    (h : p ∈ insertA l k v) : p ∈ l ∨ p = (k, v) := by
  induction l with
  | nil => simp [insertA] at h; simp [h]
  | cons q rest ih =>
    by_cases hq : q.1 = k
    · simp [insertA, hq] at h
      rcases h with h | h
      · right; simp [h]
      · left; exact List.mem_cons_of_mem _ h
    · simp only [insertA, hq, if_false, List.mem_cons] at h
      rcases h with h | h
      · left; simp [h]
      · rcases ih h with h' | h'
        · left; exact List.mem_cons_of_mem _ h'
        · right; exact h'

theorem mem_keys_unique {α β : Type} [DecidableEq α] {l : List (α × β)}
    (h : (l.map Prod.fst).Nodup) {k : α} {a b : β}
    (ha : (k, a) ∈ l) (hb : (k, b) ∈ l) : a = b := by
  induction l with
  | nil => simp at ha
  | cons p rest ih =>
    simp only [List.map_cons, List.nodup_cons] at h
    rcases List.mem_cons.mp ha with ha1 | ha2 <;>
      rcases List.mem_cons.mp hb with hb1 | hb2
    · rw [← ha1] at hb1
      exact (congrArg Prod.snd hb1.symm :)
    · exfalso
      apply h.1
      rw [← ha1]
      exact List.mem_map.mpr ⟨(k, b), hb2, rfl⟩
    · exfalso
      apply h.1
      rw [← hb1]
      exact List.mem_map.mpr ⟨(k, a), ha2, rfl⟩
    · exact ih h.2 ha2 hb2

end AssocLemmas

/-! ## Queue lemmas -/

/-- A send never touches a queue stored under a different handle. -/
theorem lookupA_blockSend_ne (qs : Queues) (h tx : Nat) (f : Frame)
    (hne : h ≠ tx) : lookupA (blockSend qs tx f) h = lookupA qs h := by
  induction qs with
  | nil => rfl
  | cons p rest ih =>
    by_cases hc : p.1 = tx ∧ p.2.closed = false
    · have hth : ¬tx = h := fun he => hne he.symm
      have hph : ¬p.1 = h := by rw [hc.1]; exact hth
      simp [blockSend, lookupA, hc, hth, hph, ih]
    · simp only [blockSend, if_neg hc, lookupA, ih]

/-- A non-blocking send never touches a queue stored under a different
handle. -/
theorem lookupA_trySend_ne (qs : Queues) (h tx : Nat) (f : Frame)
    (hne : h ≠ tx) : lookupA (trySend qs tx f) h = lookupA qs h := by
  induction qs with
  | nil => rfl
  | cons p rest ih =>
    by_cases hc : p.1 = tx ∧ p.2.closed = false ∧ p.2.buf.length < CHANNEL_CAP
    · have hth : ¬tx = h := fun he => hne he.symm
      have hph : ¬p.1 = h := by rw [hc.1]; exact hth
      simp [trySend, lookupA, hc, hth, hph, ih]
    · simp only [trySend, if_neg hc, lookupA, ih]

/-- A blocking send to an open queue appends exactly one frame to it. -/
theorem lookupA_blockSend_self {qs : Queues} {tx : Nat} {q : Queue} (f : Frame)
    (hq : lookupA qs tx = some q) (hopen : q.closed = false) :
    lookupA (blockSend qs tx f) tx = some ⟨q.buf ++ [f], false⟩ := by
  induction qs with
  | nil => simp [lookupA] at hq
  | cons p rest ih =>
    by_cases hp : p.1 = tx
    · simp only [lookupA, if_pos hp] at hq
      injection hq with hq
      subst hq
      simp [blockSend, lookupA, hp, hopen]
    · simp only [lookupA, if_neg hp] at hq
      have hc : ¬(p.1 = tx ∧ p.2.closed = false) := fun hc => hp hc.1
      simp only [blockSend, if_neg hc, lookupA, if_neg hp, ih hq]

/-- A non-blocking send to an open, non-full queue appends exactly one
frame to it. -/
theorem lookupA_trySend_self {qs : Queues} {tx : Nat} {q : Queue} (f : Frame)
    (hq : lookupA qs tx = some q) (hopen : q.closed = false)
    (hroom : q.buf.length < CHANNEL_CAP) :
    lookupA (trySend qs tx f) tx = some ⟨q.buf ++ [f], false⟩ := by
  induction qs with
  | nil => simp [lookupA] at hq
  | cons p rest ih =>
    by_cases hp : p.1 = tx
    · simp only [lookupA, if_pos hp] at hq
      injection hq with hq
      subst hq
      simp [trySend, lookupA, hp, hopen, hroom]
    · simp only [lookupA, if_neg hp] at hq
      have hc : ¬(p.1 = tx ∧ p.2.closed = false ∧ p.2.buf.length < CHANNEL_CAP) :=
        fun hc => hp hc.1
      simp only [trySend, if_neg hc, lookupA, if_neg hp, ih hq]

/-- A non-blocking send to a handle with no queue is dropped entirely. -/
theorem trySend_eq_of_absent {qs : Queues} {h : Nat} (f : Frame)
    (hq : lookupA qs h = none) : trySend qs h f = qs := by
  induction qs with
  | nil => rfl
  | cons p rest ih =>
    simp only [lookupA] at hq
    by_cases hp : p.1 = h
    · simp [hp] at hq
    · rw [if_neg hp] at hq
      have hc : ¬(p.1 = h ∧ p.2.closed = false ∧ p.2.buf.length < CHANNEL_CAP) :=
        fun hc => hp hc.1
      simp only [trySend, if_neg hc, ih hq]

/-- With distinct queue keys, a non-blocking send to a closed or full
queue is dropped entirely: the queue table is unchanged. -/
theorem trySend_eq_of_closed_or_full {qs : Queues}
    (hnd : (qs.map Prod.fst).Nodup) {h : Nat} {q : Queue} (f : Frame)
    (hq : lookupA qs h = some q)
    (hdrop : q.closed = true ∨ CHANNEL_CAP ≤ q.buf.length) :
    trySend qs h f = qs := by
  induction qs with
  | nil => rfl
  | cons p rest ih =>
    simp only [List.map_cons, List.nodup_cons] at hnd
    by_cases hp : p.1 = h
    · simp only [lookupA, if_pos hp] at hq
      injection hq with hq
      have hc : ¬(p.1 = h ∧ p.2.closed = false ∧ p.2.buf.length < CHANNEL_CAP) := by
        intro hc
        rcases hdrop with hcl | hfull
        · rw [hq] at hc; rw [hc.2.1] at hcl; cases hcl
        · rw [hq] at hc; omega
      have habs : lookupA rest h = none := by
        rw [lookupA_eq_none_iff]
        rw [← hp]
        exact hnd.1
      simp only [trySend, if_neg hc, trySend_eq_of_absent f habs]
    · simp only [lookupA, if_neg hp] at hq
      have hc : ¬(p.1 = h ∧ p.2.closed = false ∧ p.2.buf.length < CHANNEL_CAP) :=
        fun hc => hp hc.1
      simp only [trySend, if_neg hc, ih hnd.2 hq]

/-! ## Behaviour of `join_room` -/

/-- Joining a previously-unseen room name creates the room with the
joiner as sole member and sends nothing. -/
theorem join_room_fresh {rooms : Rooms} (queues : Queues) {room : String}
    (cid : Uuid) (u : String) (tx : Nat) (hl : lookupA rooms room = none) :
    join_room rooms queues room cid u tx =
      (insertA rooms room [(cid, ⟨u, tx⟩)], queues, true) := by
  norm_num [join_room, hl, insertA]

/-- Joining a room that already holds two (or more) members fails and
changes nothing. -/
theorem join_room_full {rooms : Rooms} (queues : Queues) {room : String}
    {peers : RoomPeers} (cid : Uuid) (u : String) (tx : Nat)
    (hl : lookupA rooms room = some peers) (h2 : 2 ≤ peers.length) :
    join_room rooms queues room cid u tx = (rooms, queues, false) := by
  simp [join_room, hl, h2, insertA_eq_self hl]

/-- Joining a room whose sole member is someone else fills the room and
`try_send`s the `peers` notification to both members' handles, the
existing member first. -/
theorem join_room_second {rooms : Rooms} (queues : Queues) {room : String}
    {a : Uuid} {ma : Member} (cid : Uuid) (u : String) (tx : Nat)
    (hl : lookupA rooms room = some [(a, ma)]) (hne : a ≠ cid) :
    join_room rooms queues room cid u tx =
      (insertA rooms room [(a, ma), (cid, ⟨u, tx⟩)],
       trySend (trySend queues ma.handle (.peersMsg [ma.username, u]))
         tx (.peersMsg [ma.username, u]), true) := by
  norm_num [join_room, hl, insertA, hne]

/-- Re-joining a room in which the joiner is already the sole member
replaces the entry in place; the room stays at size 1 and nothing is
sent. -/
theorem join_room_rejoin_sole {rooms : Rooms} (queues : Queues) {room : String}
    {ma : Member} (cid : Uuid) (u : String) (tx : Nat)
    (hl : lookupA rooms room = some [(cid, ma)]) :
    join_room rooms queues room cid u tx =
      (insertA rooms room [(cid, ⟨u, tx⟩)], queues, true) := by
  norm_num [join_room, hl, insertA]

/-- The registry component of a successful join of a non-full room. -/
theorem join_room_rooms_eq {rooms : Rooms} (queues : Queues) {room : String}
    {peers : RoomPeers} (cid : Uuid) (u : String) (tx : Nat)
    (hl : lookupA rooms room = some peers) (h2 : ¬2 ≤ peers.length) :
    (join_room rooms queues room cid u tx).1 =
      insertA rooms room (insertA peers cid ⟨u, tx⟩) := by
  simp only [join_room, hl, Option.getD_some, if_neg h2]
  by_cases hlen : (insertA peers cid ⟨u, tx⟩).length = 2 <;> simp [hlen]

/-- Inserting one member into a room of size at most 1 yields a
well-formed (non-empty, size ≤ 2, distinct-keyed) room. -/
theorem WFPeers_insertA {ps : RoomPeers} (cid : Uuid) (m : Member)
    (hlen : ps.length ≤ 1) (hnd : (ps.map Prod.fst).Nodup) :
    WFPeers (insertA ps cid m) :=
  ⟨insertA_ne_nil ps cid m,
   le_trans (length_insertA_le ps cid m) (by omega),
   nodup_keys_insertA cid m hnd⟩

/-- `join_room` preserves registry well-formedness. -/
theorem WF_join_room {rooms : Rooms} (queues : Queues) (room : String)
    (cid : Uuid) (u : String) (tx : Nat) (hWF : WFRooms rooms) :
    WFRooms (join_room rooms queues room cid u tx).1 := by
  obtain ⟨hnames, hmem⟩ := hWF
  have key : ∀ ps : RoomPeers, ps.length ≤ 1 → (ps.map Prod.fst).Nodup →
      WFRooms (insertA rooms room (insertA ps cid ⟨u, tx⟩)) := by
    intro ps hlen hnd
    refine ⟨nodup_keys_insertA room _ hnames, ?_⟩
    intro r hr
    rcases mem_insertA hr with h | h
    · exact hmem r h
    · rw [h]
      exact WFPeers_insertA cid _ hlen hnd
  cases hl : lookupA rooms room with
  | none =>
    rw [join_room_fresh queues cid u tx hl]
    have h0 := key [] (by simp) (by simp)
    simpa [insertA] using h0
  | some ps =>
    by_cases h2 : 2 ≤ ps.length
    · rw [join_room_full queues cid u tx hl h2]
      exact ⟨hnames, hmem⟩
    · rw [join_room_rooms_eq queues cid u tx hl h2]
      have hps := hmem (room, ps) (mem_of_lookupA_eq_some hl)
      exact key ps (by omega) hps.2.2

/-- `remove_from_rooms` preserves registry well-formedness. -/
theorem WF_remove_from_rooms {rooms : Rooms} (cid : Uuid) (hWF : WFRooms rooms) :
    WFRooms (remove_from_rooms rooms cid) := by
  obtain ⟨hnames, hmem⟩ := hWF
  constructor
  · have h1 : ((remove_from_rooms rooms cid).map Prod.fst).Sublist
        (((rooms.map fun r => (r.1, r.2.filter fun p => p.1 ≠ cid))).map Prod.fst) :=
      (List.filter_sublist _).map _
    have h2 : ((rooms.map fun r => (r.1, r.2.filter fun p => p.1 ≠ cid))).map Prod.fst
        = rooms.map Prod.fst := by
      simp [List.map_map, Function.comp]
    exact List.Nodup.sublist (h2 ▸ h1) hnames
  · intro r hr
    simp only [remove_from_rooms, List.mem_filter] at hr
    obtain ⟨hmap, hne⟩ := hr
    simp only [List.mem_map] at hmap
    obtain ⟨s, hs, hsr⟩ := hmap
    have hwf := hmem s hs
    subst hsr
    refine ⟨?_, ?_, ?_⟩
    · intro hnil
      have hnil2 : List.filter (fun p => decide (p.1 ≠ cid)) s.2 = [] := hnil
      simp only [List.isEmpty_iff] at hne
      rw [hnil2] at hne
      simp at hne
    · exact le_trans (List.length_filter_le _ s.2) hwf.2.1
    · exact List.Nodup.sublist ((List.filter_sublist _).map _) hwf.2.2

/-! ## Behaviour of the relay -/

/-- Every relay variant (`Offer`, `Answer`, `IceCandidate`) dispatches
to `relay_branch` on its room. -/
theorem handle_signaling_relay (st : ServerState) (cid : Uuid) (u : String)
    (tx : Nat) (text : String) {m : SignalingMessage} {room : String}
    (hm : relayRoom m = some room) :
    handle_signaling st cid u tx text m = relay_branch st cid tx text room := by
  cases m with
  | JoinRoom r => simp [relayRoom] at hm
  | Offer r s =>
    simp only [relayRoom, Option.some.injEq] at hm
    subst hm; rfl
  | Answer r s =>
    simp only [relayRoom, Option.some.injEq] at hm
    subst hm; rfl
  | IceCandidate r c =>
    simp only [relayRoom, Option.some.injEq] at hm
    subst hm; rfl

/-- In a two-member room the other peer found for `a` is `b`, whichever
order the table iterates in. -/
theorem find_other_peer_pair {rooms : Rooms} {room : String} {a b : Uuid}
    {ma mb : Member}
    (hl : lookupA rooms room = some [(a, ma), (b, mb)] ∨
          lookupA rooms room = some [(b, mb), (a, ma)])
    (hab : b ≠ a) :
    find_other_peer rooms room a = some (b, mb.username) := by
  rcases hl with hl | hl <;> simp [find_other_peer, hl, findOther, hab]

/-- In a two-member room the stored sender of `b` is `b`'s handle. -/
theorem get_sender_pair {rooms : Rooms} {room : String} {a b : Uuid}
    {ma mb : Member}
    (hl : lookupA rooms room = some [(a, ma), (b, mb)] ∨
          lookupA rooms room = some [(b, mb), (a, ma)])
    (hab : b ≠ a) :
    get_sender rooms room b = some mb.handle := by
  have hba : ¬a = b := fun he => hab he.symm
  rcases hl with hl | hl <;> simp [get_sender, hl, lookupA, hba]

/-! ## The claims -/

/-- **C1**: every room name present in the rooms registry has membership
size 1 or 2, never 0 and never more than 2: both registry operations —
`join_room` and `remove_from_rooms` — preserve well-formedness of the
registry (`WFRooms`, which states that every stored room is non-empty
with at most two distinctly-keyed members), and a room whose membership
becomes empty is removed within the same `remove_from_rooms` call. -/
theorem C1_registry_invariant (rooms : Rooms) (queues : Queues) (room : String)
    (cid : Uuid) (u : String) (tx : Nat) (hWF : WFRooms rooms) :
    WFRooms (join_room rooms queues room cid u tx).1 ∧
    WFRooms (remove_from_rooms rooms cid) :=
  ⟨WF_join_room queues room cid u tx hWF, WF_remove_from_rooms cid hWF⟩

/-- Witness for C1 at a concrete registry: Bob joining Alice's room and
Alice disconnecting both preserve the invariant. -/
theorem C1_registry_invariant_witness :
    WFRooms [("r", [(1, ⟨"alice", 1⟩)])] ∧
    (WFRooms (join_room [("r", [(1, ⟨"alice", 1⟩)])] [] "r" 2 "bob" 2).1 ∧
     WFRooms (remove_from_rooms [("r", [(1, ⟨"alice", 1⟩)])] 2)) :=
  ⟨by decide, C1_registry_invariant _ _ "r" 2 "bob" 2 (by decide)⟩

/-- **C2**: for two distinct connections joining the same
previously-unseen room name, the first `join_room` creates the room
with the joiner as sole member and leaves the queues untouched (no
`peers` notification); the second brings the room to exactly the two
members and, within the same `join_room` call, `try_send`s a `peers`
notification listing both identities to each member's outbound handle,
exactly once each. -/
theorem C2_pairing_notification (rooms : Rooms) (queues : Queues) (room : String)
    (a b : Uuid) (ua ub : String) (ha hb : Nat)
    (hfresh : lookupA rooms room = none) (hab : a ≠ b) :
    join_room rooms queues room a ua ha =
      (insertA rooms room [(a, ⟨ua, ha⟩)], queues, true) ∧
    lookupA (insertA rooms room [(a, ⟨ua, ha⟩)]) room = some [(a, ⟨ua, ha⟩)] ∧
    join_room (insertA rooms room [(a, ⟨ua, ha⟩)]) queues room b ub hb =
      (insertA (insertA rooms room [(a, ⟨ua, ha⟩)]) room
         [(a, ⟨ua, ha⟩), (b, ⟨ub, hb⟩)],
       trySend (trySend queues ha (.peersMsg [ua, ub])) hb (.peersMsg [ua, ub]),
       true) ∧
    lookupA (insertA (insertA rooms room [(a, ⟨ua, ha⟩)]) room
        [(a, ⟨ua, ha⟩), (b, ⟨ub, hb⟩)]) room =
      some [(a, ⟨ua, ha⟩), (b, ⟨ub, hb⟩)] := by
  refine ⟨join_room_fresh queues a ua ha hfresh, lookupA_insertA_self _ _ _, ?_, ?_⟩
  · exact join_room_second queues b ub hb (lookupA_insertA_self _ _ _) hab
  · exact lookupA_insertA_self _ _ _

/-- Witness for C2: connections 1 and 2 joining the fresh room `"r"` of
an empty registry. -/
theorem C2_pairing_notification_witness :
    (lookupA ([] : Rooms) "r" = none ∧ (1 : Uuid) ≠ 2) ∧
    (join_room ([] : Rooms) exQueues "r" 1 "alice" 10 =
      (insertA ([] : Rooms) "r" [(1, (⟨"alice", 10⟩ : Member))], exQueues, true) ∧
     lookupA (insertA ([] : Rooms) "r" [(1, (⟨"alice", 10⟩ : Member))]) "r" =
       some [(1, (⟨"alice", 10⟩ : Member))] ∧
     join_room (insertA ([] : Rooms) "r" [(1, (⟨"alice", 10⟩ : Member))])
         exQueues "r" 2 "bob" 20 =
      (insertA (insertA ([] : Rooms) "r" [(1, (⟨"alice", 10⟩ : Member))]) "r"
         [(1, (⟨"alice", 10⟩ : Member)), (2, ⟨"bob", 20⟩)],
       trySend (trySend exQueues 10 (.peersMsg ["alice", "bob"])) 20
         (.peersMsg ["alice", "bob"]),
       true) ∧
     lookupA (insertA (insertA ([] : Rooms) "r" [(1, (⟨"alice", 10⟩ : Member))]) "r"
         [(1, (⟨"alice", 10⟩ : Member)), (2, ⟨"bob", 20⟩)]) "r" =
      some [(1, (⟨"alice", 10⟩ : Member)), (2, ⟨"bob", 20⟩)]) :=
  ⟨⟨rfl, by decide⟩,
   C2_pairing_notification [] exQueues "r" 1 2 "alice" "bob" 10 20 rfl (by decide)⟩

/-- **C3**: with exactly two members A and B in room R, a relay message
from A is forwarded as the original unmodified text to B's handle by a
non-blocking send, the registry is untouched and A's own queue receives
nothing; if B's queue is closed (disconnected) or full at send time the
whole state is unchanged — the frame is dropped silently and neither
party gets an error or confirmation. -/
theorem C3_relay_forward (st : ServerState) (room : String) (a b : Uuid)
    (ma mb : Member) (u text : String) (m : SignalingMessage)
    (hm : relayRoom m = some room)
    (hl : lookupA st.rooms room = some [(a, ma), (b, mb)] ∨
          lookupA st.rooms room = some [(b, mb), (a, ma)])
    (hab : b ≠ a) :
    handle_signaling st a u ma.handle text m =
      ⟨st.rooms, trySend st.queues mb.handle (.textRaw text)⟩ ∧
    (ma.handle ≠ mb.handle →
      lookupA (handle_signaling st a u ma.handle text m).queues ma.handle =
        lookupA st.queues ma.handle) ∧
    ((st.queues.map Prod.fst).Nodup →
      ∀ q : Queue, lookupA st.queues mb.handle = some q →
        (q.closed = true ∨ CHANNEL_CAP ≤ q.buf.length) →
        handle_signaling st a u ma.handle text m = st) := by
  have hmain : handle_signaling st a u ma.handle text m =
      ⟨st.rooms, trySend st.queues mb.handle (.textRaw text)⟩ := by
    rw [handle_signaling_relay st a u ma.handle text hm]
    simp [relay_branch, find_other_peer_pair hl hab, get_sender_pair hl hab]
  refine ⟨hmain, ?_, ?_⟩
  · intro hne
    rw [hmain]
    exact lookupA_trySend_ne st.queues ma.handle mb.handle _ hne
  · intro hnd q hq hdrop
    rw [hmain, trySend_eq_of_closed_or_full hnd _ hq hdrop]

/-- Witness for C3: Alice (connection 1) relays an offer to Bob
(connection 2) in the two-member room of `exState`. -/
theorem C3_relay_forward_witness :
    (relayRoom (SignalingMessage.Offer "r" "sdpX") = some "r" ∧
     lookupA exState.rooms "r" =
       some [(1, (⟨"alice", 10⟩ : Member)), (2, ⟨"bob", 20⟩)] ∧
     (2 : Uuid) ≠ 1) ∧
    handle_signaling exState 1 "alice" 10 "rawOfferText"
        (SignalingMessage.Offer "r" "sdpX") =
      ⟨exState.rooms, trySend exState.queues 20 (.textRaw "rawOfferText")⟩ := by
  refine ⟨⟨rfl, by decide, by decide⟩, ?_⟩
  exact (C3_relay_forward exState "r" 1 2 (⟨"alice", 10⟩ : Member)
    (⟨"bob", 20⟩ : Member) "alice" "rawOfferText" (SignalingMessage.Offer "r" "sdpX")
    rfl (Or.inl (by decide)) (by decide)).1

/-- **C4**: a join on a room whose membership is already 2 fails with
`RoomFull`: `join_room` returns `Err` leaving registry and queues
unchanged, and the dispatcher enqueues the
`{"type":"error","message":"Room full"}` frame on the joiner's own
queue alone — exactly one frame on the joiner's open queue and every
other handle's queue untouched. -/
theorem C4_room_full (st : ServerState) (room text : String) (peers : RoomPeers)
    (cid : Uuid) (u : String) (tx : Nat)
    (hl : lookupA st.rooms room = some peers) (h2 : peers.length = 2) :
    join_room st.rooms st.queues room cid u tx = (st.rooms, st.queues, false) ∧
    handle_signaling st cid u tx text (.JoinRoom room) =
      ⟨st.rooms, blockSend st.queues tx (.errorMsg "Room full")⟩ ∧
    (∀ q : Queue, lookupA st.queues tx = some q → q.closed = false →
      lookupA (blockSend st.queues tx (.errorMsg "Room full")) tx =
        some ⟨q.buf ++ [.errorMsg "Room full"], false⟩) ∧
    (∀ h : Nat, h ≠ tx →
      lookupA (blockSend st.queues tx (.errorMsg "Room full")) h =
        lookupA st.queues h) := by
  have hfull : join_room st.rooms st.queues room cid u tx =
      (st.rooms, st.queues, false) :=
    join_room_full st.queues cid u tx hl (by omega)
  refine ⟨hfull, ?_, ?_, ?_⟩
  · simp [handle_signaling, hfull]
  · intro q hq hopen
    exact lookupA_blockSend_self _ hq hopen
  · intro h hne
    exact lookupA_blockSend_ne st.queues h tx _ hne

/-- Witness for C4: connection 3 tries to join the full room `"r"` of
`exState`. -/
theorem C4_room_full_witness :
    (lookupA exState.rooms "r" = some [(1, ⟨"alice", 10⟩), (2, ⟨"bob", 20⟩)] ∧
     ([(1, (⟨"alice", 10⟩ : Member)), (2, ⟨"bob", 20⟩)] : RoomPeers).length = 2) ∧
    (join_room exState.rooms exState.queues "r" 3 "carol" 30 =
      (exState.rooms, exState.queues, false) ∧
     handle_signaling exState 3 "carol" 30 "joinText" (.JoinRoom "r") =
      ⟨exState.rooms, blockSend exState.queues 30 (.errorMsg "Room full")⟩) := by
  refine ⟨⟨by decide, by decide⟩, ?_⟩
  have h := C4_room_full exState "r" "joinText"
    [(1, ⟨"alice", 10⟩), (2, ⟨"bob", 20⟩)] 3 "carol" 30 (by decide) (by decide)
  exact ⟨h.1, h.2.1⟩

/-- **C5**: a relay message for a room in which the sender is the sole
member, or which does not exist, enqueues exactly one
`{"type":"error","message":"No peer in room"}` frame to the sender and
has no other side effect: the registry is unchanged, the sender's open
queue gains exactly that one frame and every other handle's queue is
untouched. -/
theorem C5_no_peer_error (st : ServerState) (room : String) (a : Uuid)
    (ma : Member) (u : String) (tx : Nat) (text : String) (m : SignalingMessage)
    (hm : relayRoom m = some room)
    (hl : lookupA st.rooms room = none ∨ lookupA st.rooms room = some [(a, ma)]) :
    handle_signaling st a u tx text m =
      ⟨st.rooms, blockSend st.queues tx (.errorMsg "No peer in room")⟩ ∧
    (∀ q : Queue, lookupA st.queues tx = some q → q.closed = false →
      lookupA (blockSend st.queues tx (.errorMsg "No peer in room")) tx =
        some ⟨q.buf ++ [.errorMsg "No peer in room"], false⟩) ∧
    (∀ h : Nat, h ≠ tx →
      lookupA (blockSend st.queues tx (.errorMsg "No peer in room")) h =
        lookupA st.queues h) := by
  have hfo : find_other_peer st.rooms room a = none := by
    rcases hl with hl | hl <;> simp [find_other_peer, hl, findOther]
  refine ⟨?_, ?_, ?_⟩
  · rw [handle_signaling_relay st a u tx text hm]
    simp [relay_branch, hfo]
  · intro q hq hopen
    exact lookupA_blockSend_self _ hq hopen
  · intro h hne
    exact lookupA_blockSend_ne st.queues h tx _ hne

/-- Witness for C5: Alice (connection 1) sends an `IceCandidate` for a
room `"solo"` in which she is the sole member. -/
theorem C5_no_peer_error_witness :
    (relayRoom (SignalingMessage.IceCandidate "solo" "cand") = some "solo" ∧
     lookupA [("solo", [(1, (⟨"alice", 10⟩ : Member))])] "solo" =
       some [(1, ⟨"alice", 10⟩)]) ∧
    handle_signaling ⟨[("solo", [(1, ⟨"alice", 10⟩)])], exQueues⟩ 1 "alice" 10
        "rawCand" (SignalingMessage.IceCandidate "solo" "cand") =
      ⟨[("solo", [(1, ⟨"alice", 10⟩)])],
       blockSend exQueues 10 (.errorMsg "No peer in room")⟩ := by
  refine ⟨⟨rfl, by decide⟩, ?_⟩
  exact (C5_no_peer_error ⟨[("solo", [(1, ⟨"alice", 10⟩)])], exQueues⟩ "solo" 1
    ⟨"alice", 10⟩ "alice" 10 "rawCand" (SignalingMessage.IceCandidate "solo" "cand")
    rfl (Or.inr (by decide))).1

/-- **C9**: handling any `Offer`, `Answer` or `IceCandidate` message
never mutates the room registry — no room is created and no membership
entry is added, removed or replaced, whatever the registry contents. -/
theorem C9_relay_registry_pure (st : ServerState) (cid : Uuid) (u : String)
    (tx : Nat) (text : String) (m : SignalingMessage) (room : String)
    (hm : relayRoom m = some room) :
    (handle_signaling st cid u tx text m).rooms = st.rooms := by
  rw [handle_signaling_relay st cid u tx text hm]
  cases hfo : find_other_peer st.rooms room cid with
  | none => simp [relay_branch, hfo]
  | some other =>
    cases hgs : get_sender st.rooms room other.1 with
    | none => simp [relay_branch, hfo, hgs]
    | some otx => simp [relay_branch, hfo, hgs]

/-- Witness for C9: an `Answer` relayed through `exState` leaves the
registry exactly as it was. -/
theorem C9_relay_registry_pure_witness :
    relayRoom (SignalingMessage.Answer "r" "sdpY") = some "r" ∧
    (handle_signaling exState 1 "alice" 10 "rawAnswer"
        (SignalingMessage.Answer "r" "sdpY")).rooms = exState.rooms :=
  ⟨rfl, C9_relay_registry_pure exState 1 "alice" 10 "rawAnswer"
    (SignalingMessage.Answer "r" "sdpY") "r" rfl⟩

/-- **C6**: after `remove_from_rooms` with a connection id, that id is
absent from every surviving room's membership, no surviving room is
empty, every room whose membership consisted solely of that id is gone
from the registry (a later lookup of its name finds nothing), and the
operation is a no-op when the id is a member of no room. -/
theorem C6_disconnect_cleanup (rooms : Rooms) (cid : Uuid) (hWF : WFRooms rooms) :
    (∀ r ∈ remove_from_rooms rooms cid, (∀ p ∈ r.2, p.1 ≠ cid) ∧ r.2 ≠ []) ∧
    (∀ n peers, (n, peers) ∈ rooms → (∀ p ∈ peers, p.1 = cid) →
      lookupA (remove_from_rooms rooms cid) n = none) ∧
    ((∀ r ∈ rooms, ∀ p ∈ r.2, p.1 ≠ cid) → remove_from_rooms rooms cid = rooms) := by
  refine ⟨?_, ?_, ?_⟩
  · intro r hr
    simp only [remove_from_rooms, List.mem_filter] at hr
    obtain ⟨hmap, hne⟩ := hr
    simp only [List.mem_map] at hmap
    obtain ⟨s, _, hsr⟩ := hmap
    subst hsr
    constructor
    · intro p hp
      have := List.mem_filter.mp hp
      simpa using this.2
    · intro hnil
      have hnil2 : List.filter (fun p => decide (p.1 ≠ cid)) s.2 = [] := hnil
      simp only [List.isEmpty_iff] at hne
      rw [hnil2] at hne
      simp at hne
  · intro n peers hmem hall
    rw [lookupA_eq_none_iff]
    intro hkeys
    simp only [List.mem_map] at hkeys
    obtain ⟨r, hr, hrn⟩ := hkeys
    simp only [remove_from_rooms, List.mem_filter] at hr
    obtain ⟨hmap, hne⟩ := hr
    simp only [List.mem_map] at hmap
    obtain ⟨s, hs, hsr⟩ := hmap
    have hs1 : s.1 = n := by rw [← hsr] at hrn; exact hrn
    have hsn : (n, s.2) ∈ rooms := by rw [← hs1]; exact hs
    have hspeers : s.2 = peers := mem_keys_unique hWF.1 hsn hmem
    have hfilter : List.filter (fun p => decide (p.1 ≠ cid)) s.2 = [] := by
      rw [List.filter_eq_nil_iff]
      intro p hp
      rw [hspeers] at hp
      simp [hall p hp]
    rw [← hsr] at hne
    simp only [List.isEmpty_iff] at hne
    rw [hfilter] at hne
    simp at hne
  · intro hnone
    unfold remove_from_rooms
    have hmap : rooms.map (fun r => (r.1, r.2.filter fun p => p.1 ≠ cid)) = rooms := by
      rw [show rooms = rooms.map id by simp]
      rw [List.map_map]
      apply List.map_congr_left
      intro r hr
      simp only [Function.comp, id]
      have : List.filter (fun p => decide (p.1 ≠ cid)) r.2 = r.2 := by
        rw [List.filter_eq_self]
        intro p hp
        simp [hnone r (by simpa using hr) p hp]
      rw [this]
    rw [hmap]
    rw [List.filter_eq_self]
    intro r hr
    have hnil := (hWF.2 r hr).1
    simp [List.isEmpty_iff, hnil]

/-- Witness for C6: removing connection 1 from the two-member room of
`exRooms`. -/
theorem C6_disconnect_cleanup_witness :
    WFRooms exRooms ∧
    (∀ r ∈ remove_from_rooms exRooms 1, (∀ p ∈ r.2, p.1 ≠ 1) ∧ r.2 ≠ []) :=
  ⟨by decide, (C6_disconnect_cleanup exRooms 1 (by decide)).1⟩

/-- **C7**: `GET /ws` with a missing token or a token that fails
verification is answered `401 Unauthorized` with no upgrade (so no
session exists), and a verified token upgrades into a session whose
identity is exactly the token's subject. -/
theorem C7_admission (decodeTok : String → Option Claims) (query : Option String) :
    (query = none → ws_handler decodeTok query = .status .unauthorized) ∧
    (∀ t, query = some t → decodeTok t = none →
      ws_handler decodeTok query = .status .unauthorized) ∧
    (∀ t c, query = some t → decodeTok t = some c →
      ws_handler decodeTok query = .upgraded c.sub) := by
  refine ⟨?_, ?_, ?_⟩
  · intro h; subst h; rfl
  · intro t ht hd
    subst ht
    simp [ws_handler, validate_token, hd]
  · intro t c ht hd
    subst ht
    simp [ws_handler, validate_token, hd]

/-- Witness for C7: the concrete verifier `exDecode` with a missing, a
bad and the good token. -/
theorem C7_admission_witness :
    ws_handler exDecode none = .status .unauthorized ∧
    ws_handler exDecode (some "bad") = .status .unauthorized ∧
    ws_handler exDecode (some "tok") = .upgraded "alice" :=
  ⟨(C7_admission exDecode none).1 rfl,
   (C7_admission exDecode (some "bad")).2.1 "bad" rfl (by decide),
   (C7_admission exDecode (some "tok")).2.2 "tok" ⟨"alice", 99⟩ rfl (by decide)⟩

/-- **C8 (amended)**: in the reading loop, a read error is translated
into a best-effort close frame on the session's own outbound queue
followed by loop termination; a client-initiated close frame, by
contrast, is skipped by the `Message::Text` guard and the loop simply
terminates when the stream ends, with no close frame enqueued. -/
theorem C8_read_error_close (st : ServerState) (cid : Uuid) (u : String)
    (tx : Nat) (rest : List ReadItem) :
    reading_loop st cid u tx (.errorItem :: rest) =
      ⟨st.rooms, blockSend st.queues tx .closeMsg⟩ ∧
    reading_loop st cid u tx [.closeItem] = st :=
  ⟨rfl, rfl⟩

/-- Counterexample to C8 as stated: a session whose client sends a close
frame and disconnects ends the reading loop with its outbound queue
still exactly empty — no outbound close frame was enqueued, contrary to
the claim that a client-initiated close is translated into one. -/
theorem C8_client_close_counterexample :
    lookupA (reading_loop (⟨[], [(10, ⟨[], false⟩)]⟩ : ServerState) 1 "alice" 10
      [ReadItem.closeItem]).queues 10 = some ⟨[], false⟩ := by
  decide

/-- **C10**: a join by the connection that is already the sole member of
the room succeeds idempotently — the insert replaces its entry, the
room stays at size 1 and no notification is sent — while a join into a
room already holding two members fails with `RoomFull` even when the
joining id is itself one of those two members. -/
theorem C10_rejoin_semantics (rooms : Rooms) (queues : Queues) (room : String)
    (cid : Uuid) (u : String) (tx : Nat) :
    (∀ ma : Member, lookupA rooms room = some [(cid, ma)] →
      join_room rooms queues room cid u tx =
        (insertA rooms room [(cid, ⟨u, tx⟩)], queues, true) ∧
      lookupA (insertA rooms room [(cid, ⟨u, tx⟩)]) room = some [(cid, ⟨u, tx⟩)]) ∧
    (∀ peers : RoomPeers, lookupA rooms room = some peers → peers.length = 2 →
      cid ∈ peers.map Prod.fst →
      join_room rooms queues room cid u tx = (rooms, queues, false)) := by
  constructor
  · intro ma hl
    exact ⟨join_room_rejoin_sole queues cid u tx hl, lookupA_insertA_self _ _ _⟩
  · intro peers hl h2 hmem
    exact join_room_full queues cid u tx hl (by omega)

/-- Witness for C10: Alice re-joins her solo room with a new handle, and
Alice attempts to re-join the full room `"r"` she is a member of. -/
theorem C10_rejoin_semantics_witness :
    (lookupA [("solo", [(1, (⟨"alice", 10⟩ : Member))])] "solo" =
       some [(1, (⟨"alice", 10⟩ : Member))] ∧
     join_room [("solo", [(1, (⟨"alice", 10⟩ : Member))])] exQueues "solo"
         1 "alice" 11 =
       (insertA [("solo", [(1, (⟨"alice", 10⟩ : Member))])] "solo"
          [(1, (⟨"alice", 11⟩ : Member))], exQueues, true)) ∧
    (lookupA exRooms "r" = some [(1, (⟨"alice", 10⟩ : Member)), (2, ⟨"bob", 20⟩)] ∧
     (1 : Uuid) ∈ ([(1, (⟨"alice", 10⟩ : Member)), (2, ⟨"bob", 20⟩)] :
        RoomPeers).map Prod.fst ∧
     join_room exRooms exQueues "r" 1 "alice" 10 = (exRooms, exQueues, false)) := by
  refine ⟨⟨by decide, ?_⟩, by decide, by decide, ?_⟩
  · exact ((C10_rejoin_semantics [("solo", [(1, ⟨"alice", 10⟩)])] exQueues "solo"
      1 "alice" 11).1 ⟨"alice", 10⟩ (by decide)).1
  · exact (C10_rejoin_semantics exRooms exQueues "r" 1 "alice" 10).2
      [(1, ⟨"alice", 10⟩), (2, ⟨"bob", 20⟩)] (by decide) (by decide) (by decide)

end P2PChat
